import Mathlib

/-!
Verification development for the per-guild playback queue manager in `src/bot.py`.

The state machine of one guild (tenant) is embedded shallowly:

* `Track` mirrors the `track_info` dictionaries produced by
  `get_spotify_track_info` (the fields the queue logic reads).
* `Sink` mirrors the discord voice client `vc`: at most one active stream,
  identified by a fresh stream id per `vc.play` call, plus a paused flag.
  `vc.play` raises `ClientException` when `vc.is_playing()` is true; callers in
  the source either guard on `is_playing/is_paused` or catch the exception.
* `GState` gathers the module level dictionaries for one guild id:
  `queues[guild_id]`, `current_track[guild_id]`, the voice client, and the
  `play_next` tasks scheduled by `asyncio.create_task` from the `after_playing`
  callbacks.  Each pending task is tagged with the id of the stream whose
  completion scheduled it, so that staleness (the spec notion of a completion
  callback for a stream that is no longer active) can be stated; the source
  callback itself ignores that association.
* The voice connection itself (`join`/`leave`, the `if not vc` guards) is
  transport and out of the specified state machine; the model assumes a
  connected voice client, so the `else` branches that merely report
  "Not connected" are not modelled.
* Embed/message rendering (`player_message`, `player_channel`, interaction
  responses) has no effect on the queue state machine and is omitted.
* `asyncio.create_task` is modelled as successfully scheduling the coroutine;
  the scheduled `play_next` runs when the explicit `runTask` event fires, which
  models the freedom the event loop has in when the task actually executes.
* In the `except` branch of `play_next` (line 307..309) the rescheduled
  `play_next` is modelled as running as the direct continuation, since no other
  event can be interleaved in the traces the claims are about.
-/

namespace MusicBot

/-- One resolved track, as the dictionaries built by `get_spotify_track_info`:
only the fields the queue logic reads are kept.  `preview_url` is `None` or a
URL string in the source, so the falsiness test `not track_info['preview_url']`
is `Option.isNone` here. -/
structure Track where
  title : String
  artist : String
  duration : Nat
  preview_url : Option String
  full_url : String
deriving DecidableEq, Repr

/-- The discord voice client: `playing` is the id of the active stream
(`vc.play` hands out fresh ids), `paused` the pause flag. -/
structure Sink where
  playing : Option Nat
  paused : Bool
  nextId : Nat
deriving DecidableEq, Repr

/-- Model of `vc.is_playing()`. -/
def Sink.isPlaying (k : Sink) : Bool := k.playing.isSome && !k.paused

/-- Model of `vc.is_paused()`. -/
def Sink.isPaused (k : Sink) : Bool := k.playing.isSome && k.paused

/-- Model of a successful `vc.play(source, after=...)`: a fresh stream id
becomes active. -/
def Sink.start (k : Sink) : Sink :=
  { playing := some k.nextId, paused := false, nextId := k.nextId + 1 }

/-- State of one guild: `queues[guild_id]`, `current_track[guild_id]`, the
voice client, and the scheduled `play_next` tasks (tagged with the stream id
whose `after_playing` scheduled them). -/
structure GState where
  queue : List Track
  current_track : Option Track
  sink : Sink
  pendingTasks : List Nat
deriving DecidableEq, Repr

/-- Spec phases: `Playing` when `vc.is_playing()`, `Paused` when
`vc.is_paused()`, `Idle` otherwise. -/
inductive Phase where
  | Idle
  | Playing
  | Paused
deriving DecidableEq, Repr

/-- Phase of a guild state. -/
def phase (s : GState) : Phase :=
  if s.sink.isPlaying then Phase.Playing
  else if s.sink.isPaused then Phase.Paused
  else Phase.Idle

/-- Result of one cascade of `play_next` (bot.py lines 266..309), together
with instrumentation of what the cascade did:

* `writes` records, in order, every value assigned to `current_track[guild_id]`
  during the cascade (line 269 writes `None`, line 276 writes the popped track);
* `starts` records the tracks for which `vc.play` was invoked successfully;
* `pops` counts the `queues[guild_id].pop(0)` calls;
* `depth` counts the nesting of `await play_next(...)` coroutine frames
  (line 280); the `asyncio.create_task(play_next(...))` in the `except` branch
  starts a fresh task and therefore does not add nesting. -/
structure AdvanceResult where
  queue : List Track
  current : Option Track
  sink : Sink
  writes : List (Option Track)
  starts : List Track
  pops : Nat
  depth : Nat
deriving DecidableEq, Repr

/-- The recursive core of `play_next` (bot.py lines 266..309).  Head pops at
line 275, the unconditional `current_track[guild_id] = track_info` at
line 276, the missing preview recursion at lines 278..281, `vc.play` at
line 306 (which raises when the sink is already playing; the `except` branch
at lines 307..309 then schedules `play_next` again). -/
def advanceAux (k : Sink) : List Track → AdvanceResult
  | [] =>
      { queue := [], current := none, sink := k,
        writes := [none], starts := [], pops := 0, depth := 1 }
  | t :: rest =>
      if t.preview_url.isNone then
        let r := advanceAux k rest
        { r with writes := some t :: r.writes, pops := r.pops + 1,
                 depth := r.depth + 1 }
      else if k.isPlaying then
        let r := advanceAux k rest
        { r with writes := some t :: r.writes, pops := r.pops + 1 }
      else
        { queue := rest, current := some t, sink := k.start,
          writes := [some t], starts := [t], pops := 1, depth := 1 }

/-- Effect of one `play_next(guild_id, vc)` cascade on the guild state. -/
def play_next (s : GState) : GState :=
  let r := advanceAux s.sink s.queue
  { s with queue := r.queue, current_track := r.current, sink := r.sink }

/-- Model of `vc.stop()`: if a stream is active it is stopped and its
`after_playing` callback fires, scheduling one `play_next` task tagged with
the stopped stream id. -/
def vcStop (s : GState) : GState :=
  match s.sink.playing with
  | some i =>
      { s with sink := { s.sink with playing := none, paused := false },
               pendingTasks := s.pendingTasks ++ [i] }
  | none => s

/-- Natural end of the active stream: the source is exhausted, the player
thread finishes and `after_playing` fires, scheduling a `play_next` task. -/
def streamFinished (s : GState) : GState := vcStop s

/-- Delivery of one scheduled `play_next` task (the body of `after_playing`
runs `play_next` unconditionally; the stream id the task originated from is
ignored by the source). -/
def runTask (s : GState) : GState :=
  match s.pendingTasks with
  | [] => s
  | _ :: rest => play_next { s with pendingTasks := rest }

/-- Responses of the `/play` command relevant to the state machine. -/
inductive PlayResult where
  | notFound
  | noPreview (title artist full_url : String)
  | queued (t : Track) (position : Nat)
  | startedPlaying (t : Track)
deriving DecidableEq, Repr

/-- The `/play` command (bot.py lines 312..395) after the transport guards:
`resolved` is the value returned by `get_spotify_track_info`.  Lines 342..343
give the not-found error, lines 345..349 the no-preview error (the message
surfaces title, artist and the catalog `full_url`), lines 352..363 append to
the queue with 1-based position `len(queues[guild_id])` measured after the
append, lines 366..384 start playback immediately. -/
def play (resolved : Option Track) (s : GState) : PlayResult × GState :=
  match resolved with
  | none => (PlayResult.notFound, s)
  | some t =>
      if t.preview_url.isNone then
        (PlayResult.noPreview t.title t.artist t.full_url, s)
      else if s.sink.isPlaying || s.sink.isPaused then
        let q := s.queue ++ [t]
        (PlayResult.queued t q.length, { s with queue := q })
      else
        (PlayResult.startedPlaying t,
         { s with current_track := some t, sink := s.sink.start })

/-- The `/skip` command (bot.py lines 482..496): when something is playing or
paused, `vc.stop()` (which fires the completion callback) and then a direct
`await play_next(guild_id, vc)` at line 492. -/
def skip (s : GState) : GState :=
  if s.sink.isPlaying || s.sink.isPaused then play_next (vcStop s) else s

/-- The `/stop` command (bot.py lines 512..526): `vc.stop()`, clear the queue,
clear `current_track`. -/
def stop (s : GState) : GState :=
  let s1 := vcStop s
  { s1 with queue := [], current_track := none }

/-- The `/clear` command (bot.py lines 499..509): empties the queue and
reports how many entries were removed (an absent dict entry is reported as an
already empty queue; it removes the same zero entries as a present empty
list, so both are the empty queue here). -/
def clear (s : GState) : Nat × GState :=
  (s.queue.length, { s with queue := [] })

/-- The `/pause` command (bot.py lines 529..547): only acts when
`vc.is_playing()`. -/
def pause (s : GState) : GState :=
  if s.sink.isPlaying then
    { s with sink := { s.sink with paused := true } }
  else s

/-- The `/resume` command (bot.py lines 550..568): only acts when
`vc.is_paused()`. -/
def resume (s : GState) : GState :=
  if s.sink.isPaused then
    { s with sink := { s.sink with paused := false } }
  else s

/-- The spec invariant of claim C9: `nowPlaying` is set exactly when the phase
is `Playing` or `Paused`, i.e. exactly when a stream is active. -/
def Inv (s : GState) : Prop :=
  s.current_track.isSome ↔ s.sink.playing.isSome

instance (s : GState) : Decidable (Inv s) := by
  unfold Inv; infer_instance

/-! Concrete tracks and traces used by counterexamples and witnesses. -/

/-- A playable track. -/
def trackA : Track :=
  { title := "A", artist := "artA", duration := 180,
    preview_url := some "a.mp3", full_url := "spotify/A" }

/-- A second playable track, distinct from `trackA`. -/
def trackB : Track :=
  { title := "B", artist := "artB", duration := 200,
    preview_url := some "b.mp3", full_url := "spotify/B" }

/-- A third playable track. -/
def trackD : Track :=
  { title := "D", artist := "artD", duration := 150,
    preview_url := some "d.mp3", full_url := "spotify/D" }

/-- An unplayable track: resolved metadata but no preview audio. -/
def trackU : Track :=
  { title := "U", artist := "artU", duration := 90,
    preview_url := none, full_url := "spotify/U" }

/-- Fresh guild state: empty queue, nothing playing, idle sink. -/
def init0 : GState :=
  { queue := [], current_track := none,
    sink := { playing := none, paused := false, nextId := 0 },
    pendingTasks := [] }

/-- State after enqueueing `trackA` on the fresh guild: `trackA` playing as
stream 0. -/
def sPlayingA : GState := (play (some trackA) init0).2

/-- State after additionally enqueueing `trackB`: still playing `trackA`,
queue `[trackB]`. -/
def sQueuedB : GState := (play (some trackB) sPlayingA).2

/-- State right after `/skip` on `sQueuedB`. -/
def sAfterSkip : GState := skip sQueuedB

/-- State once the completion callback of the stream stopped by the skip has
also been delivered. -/
def sSettled : GState := runTask sAfterSkip

/-- State after `/stop` on `sPlayingA`: idle, with the completion task of the
stopped stream 0 still pending delivery. -/
def sStopped : GState := stop sPlayingA

/-- State after enqueueing `trackD` while idle on `sStopped`: `trackD` playing
as stream 1 while the completion task of old stream 0 is still pending. -/
def sPlayingD : GState := (play (some trackD) sStopped).2

example : sPlayingA =
    { queue := [], current_track := some trackA,
      sink := { playing := some 0, paused := false, nextId := 1 },
      pendingTasks := [] } := by decide

example : sAfterSkip =
    { queue := [], current_track := some trackB,
      sink := { playing := some 1, paused := false, nextId := 2 },
      pendingTasks := [0] } := by decide

example : sSettled =
    { queue := [], current_track := none,
      sink := { playing := some 1, paused := false, nextId := 2 },
      pendingTasks := [] } := by decide

example : sPlayingD =
    { queue := [], current_track := some trackD,
      sink := { playing := some 1, paused := false, nextId := 2 },
      pendingTasks := [0] } := by decide

/-! Helper lemmas about the advance cascade. -/

theorem Sink.isPlaying_false_of_none {k : Sink} (hk : k.playing = none) :
    k.isPlaying = false := by
  simp [Sink.isPlaying, hk]

theorem advanceAux_pops_le (k : Sink) (q : List Track) :
    (advanceAux k q).pops ≤ q.length := by
  induction q with
  | nil => simp [advanceAux]
  | cons t rest ih =>
    by_cases h1 : t.preview_url.isNone
    · simp [advanceAux, h1]; omega
    · by_cases h2 : k.isPlaying
      · simp [advanceAux, h1, h2]; omega
      · simp [advanceAux, h1, h2]

theorem advanceAux_idle_shape (k : Sink) (hk : k.playing = none) (q : List Track) :
    (∃ t, (advanceAux k q).current = some t ∧ t.preview_url.isSome ∧
      (advanceAux k q).sink = k.start ∧ (advanceAux k q).starts = [t]) ∨
    ((advanceAux k q).current = none ∧ (advanceAux k q).sink = k ∧
      (advanceAux k q).starts = []) := by
  induction q with
  | nil => right; simp [advanceAux]
  | cons t rest ih =>
    by_cases h1 : t.preview_url.isNone
    · simpa only [advanceAux, h1, if_true] using ih
    · have hp : k.isPlaying = false := Sink.isPlaying_false_of_none hk
      left
      refine ⟨t, ?_⟩
      simp only [advanceAux, h1, hp, if_false]
      refine ⟨rfl, ?_, rfl, rfl⟩
      cases h : t.preview_url with
      | none => exact absurd (by simp [h]) h1
      | some v => simp

theorem advanceAux_skipRun (k : Sink) (hk : k.playing = none)
    (P : Track) (hP : P.preview_url.isSome) (rest : List Track) :
    ∀ Us : List Track, (∀ u ∈ Us, u.preview_url = none) →
      advanceAux k (Us ++ P :: rest) =
        { queue := rest, current := some P, sink := k.start,
          writes := Us.map some ++ [some P], starts := [P],
          pops := Us.length + 1, depth := Us.length + 1 } := by
  intro Us
  induction Us with
  | nil =>
    intro _
    have hp : k.isPlaying = false := Sink.isPlaying_false_of_none hk
    have hPn : P.preview_url.isNone = false := by
      cases h : P.preview_url with
      | none => rw [h] at hP; exact absurd hP (by simp)
      | some v => simp
    simp [advanceAux, hPn, hp]
  | cons u us ih =>
    intro hall
    have hu : u.preview_url = none := hall u (by simp)
    have h2 := ih (fun x hx => hall x (by simp [hx]))
    rw [List.cons_append]
    simp [advanceAux, hu, h2]

/-! Claim theorems. -/

/-- Claim C1, counterexample.  Start from a fresh guild, enqueue playable
`trackA` (it starts playing as stream 0), enqueue playable `trackB`
(queued behind it), then call `/skip` once.  The claim says skip stops the
sink and lets the completion callback alone perform the advance (skip itself
does not pop), and that one skip leaves the tenant Playing the second
enqueued track.  In the source, `skip` calls `play_next` directly at
line 492 after `vc.stop()`: immediately after the skip the queue has been
popped by the skip call itself, and once the stopped stream completion
callback (scheduled by `vc.stop()` through `after_playing`) is delivered,
its unconditional second advance runs on the now empty queue and erases
`current_track`, so the tenant is not left with the second track as
`nowPlaying`. -/
theorem c1_counterexample :
    sQueuedB.queue = [trackB] ∧ phase sQueuedB = Phase.Playing ∧
    sAfterSkip.queue = [] ∧ sAfterSkip.current_track = some trackB ∧
    sSettled.current_track ≠ some trackB ∧ sSettled.current_track = none := by
  decide

/-- Claim C1, amended: `/skip` stops the active sink but performs an advance
itself (line 492) in addition to the advance scheduled by the stopped stream
completion callback.  With exactly one playable track queued, the skip call
itself pops it and starts it, and delivering the stopped stream completion
afterwards runs a duplicate advance on the empty queue which clears
`nowPlaying` while the sink keeps playing the new stream. -/
theorem c1_amended (s : GState) (B : Track) (i : Nat)
    (hplay : s.sink.playing = some i) (hpause : s.sink.paused = false)
    (hq : s.queue = [B]) (hB : B.preview_url.isSome)
    (htasks : s.pendingTasks = []) :
    (skip s).current_track = some B ∧ (skip s).queue = [] ∧
    (skip s).sink.playing = some s.sink.nextId ∧
    (skip s).pendingTasks = [i] ∧
    (runTask (skip s)).current_track = none ∧
    phase (runTask (skip s)) = Phase.Playing := by
  have hBn : B.preview_url.isNone = false := by
    cases h : B.preview_url with
    | none => rw [h] at hB; exact absurd hB (by simp)
    | some v => simp
  obtain ⟨q, cur, ⟨pl, pa, nid⟩, tasks⟩ := s
  dsimp only at hplay hpause hq htasks ⊢
  subst hplay hpause hq htasks
  simp [skip, vcStop, play_next, advanceAux, runTask, phase,
    Sink.isPlaying, Sink.isPaused, Sink.start, hBn]

/-- Claim C1, witness for the amended theorem at the concrete two track
trace. -/
theorem c1_witness :
    (skip sQueuedB).current_track = some trackB ∧ (skip sQueuedB).queue = [] ∧
    (skip sQueuedB).sink.playing = some sQueuedB.sink.nextId ∧
    (skip sQueuedB).pendingTasks = [0] ∧
    (runTask (skip sQueuedB)).current_track = none ∧
    phase (runTask (skip sQueuedB)) = Phase.Playing :=
  c1_amended sQueuedB trackB 0 (by decide) (by decide) (by decide) (by decide)
    (by decide)

/-- Claim C2, counterexample.  Reachable trace: enqueue `trackA` (plays as
stream 0), `/stop` (stream 0 is stopped and its completion task is scheduled
but not yet delivered), enqueue `trackD` while idle (plays as stream 1).
The pending completion task originates from stream 0, which is no longer the
active stream, so by the claim its delivery must leave phase, nowPlaying and
pendingQueue unchanged.  In the source `after_playing` runs `play_next`
unconditionally, so delivering the stale callback erases
`current_track` (from `trackD` to `None`) while stream 1 keeps playing. -/
theorem c2_counterexample :
    sPlayingD.pendingTasks = [0] ∧ sPlayingD.sink.playing = some 1 ∧
    sPlayingD.current_track = some trackD ∧
    runTask sPlayingD ≠ { sPlayingD with pendingTasks := [] } ∧
    (runTask sPlayingD).current_track = none ∧
    phase (runTask sPlayingD) = Phase.Playing := by
  decide

/-- Claim C2, amended: completion callbacks carry no stale stream guard; the
callback advances unconditionally.  Delivered while the pending queue is
empty, a completion task from a stream other than the active one sets
`nowPlaying` to `None` (and, when the queue is not empty, pops and starts the
head as a duplicate advance). -/
theorem c2_amended (s : GState) (i : Nat) (rest : List Nat)
    (htask : s.pendingTasks = i :: rest) (_hstale : s.sink.playing ≠ some i)
    (hq : s.queue = []) :
    runTask s = { s with pendingTasks := rest, current_track := none } := by
  simp only [runTask, htask, play_next, hq, advanceAux]

/-- Claim C2, witness for the amended theorem at the concrete stale trace. -/
theorem c2_witness :
    runTask sPlayingD = { sPlayingD with pendingTasks := [], current_track := none } :=
  c2_amended sPlayingD 0 [] (by decide) (by decide) (by decide)

/-- Claim C3, counterexample.  Advancing on the queue `[trackU, trackA]`
(one unplayable track followed by a playable one) writes `some trackU` into
`current_track` before the playability check: line 276 of the source assigns
the popped track unconditionally and only afterwards line 278 tests
`preview_url`.  So the unplayable track does appear as `nowPlaying` at an
intermediate point of the advance, contrary to the claim. -/
theorem c3_counterexample :
    trackU.preview_url = none ∧
    some trackU ∈ (advanceAux init0.sink [trackU, trackA]).writes := by
  decide

/-- Claim C3, amended: for a queue of unplayable tracks followed by a playable
one, the advance never starts the sink for any unplayable track and ends with
the playable track as `nowPlaying` and the remainder as the pending queue;
however each popped unplayable track is transiently assigned to `nowPlaying`
(the assignment at line 276 precedes the playability check at line 278). -/
theorem c3_amended (s : GState) (Us rest : List Track) (P : Track)
    (hk : s.sink.playing = none) (hq : s.queue = Us ++ P :: rest)
    (hUs : ∀ u ∈ Us, u.preview_url = none) (hP : P.preview_url.isSome) :
    (play_next s).current_track = some P ∧ (play_next s).queue = rest ∧
    (advanceAux s.sink s.queue).starts = [P] ∧
    (∀ u ∈ Us, u ∉ (advanceAux s.sink s.queue).starts) ∧
    (advanceAux s.sink s.queue).writes = Us.map some ++ [some P] := by
  have h := advanceAux_skipRun s.sink hk P hP rest Us hUs
  refine ⟨?_, ?_, ?_, ?_, ?_⟩
  · simp [play_next, hq, h]
  · simp [play_next, hq, h]
  · simp [hq, h]
  · intro u hu
    rw [hq, h]
    simp only [List.mem_singleton]
    intro heq
    have h3 := hUs u hu
    rw [heq] at h3
    rw [h3] at hP
    exact absurd hP (by simp)
  · simp [hq, h]

/-- Claim C3, witness for the amended theorem on a concrete two unplayable
plus one playable queue. -/
theorem c3_witness :
    (play_next { init0 with queue := [trackU, trackU, trackA, trackB] }).current_track
        = some trackA ∧
    (play_next { init0 with queue := [trackU, trackU, trackA, trackB] }).queue
        = [trackB] ∧
    (advanceAux init0.sink [trackU, trackU, trackA, trackB]).starts = [trackA] ∧
    (∀ u ∈ [trackU, trackU],
      u ∉ (advanceAux init0.sink [trackU, trackU, trackA, trackB]).starts) ∧
    (advanceAux init0.sink [trackU, trackU, trackA, trackB]).writes
        = [trackU, trackU].map some ++ [some trackA] :=
  c3_amended { init0 with queue := [trackU, trackU, trackA, trackB] }
    [trackU, trackU] [trackB] trackA (by decide) (by decide)
    (by decide) (by decide)

/-- Claim C4, counterexample.  The advance past unplayable tracks is the
recursion `await play_next(...)` at line 280, not an iterative loop: on the
queue `[trackU, trackU, trackA]` the cascade nests three coroutine frames
(an iterative implementation would re-enter no nested advance frame, i.e.
would have depth one), so the call depth grows with the run of unplayable
tracks instead of staying bounded. -/
theorem c4_counterexample :
    (advanceAux init0.sink [trackU, trackU, trackA]).depth = 3 ∧
    ¬ (advanceAux init0.sink [trackU, trackU, trackA]).depth ≤ 1 := by
  decide

/-- Claim C4, amended: advancing always terminates after at most
`len(pendingQueue)` head pops and, from an idle sink, ends either with a
playable track started or with the tenant idle (`nowPlaying = None`, sink
unchanged); but it is implemented as recursion whose nested call depth on a
run of `K` unplayable tracks followed by a playable one is `K + 1`, growing
without bound in `K` rather than staying constant as an iterative loop
would. -/
theorem c4_amended (k : Sink) (q : List Track) (u p : Track) (K : Nat)
    (hk : k.playing = none) (hu : u.preview_url = none)
    (hp : p.preview_url.isSome) :
    (advanceAux k q).pops ≤ q.length ∧
    ((∃ t, (advanceAux k q).current = some t ∧ t.preview_url.isSome ∧
        (advanceAux k q).sink = k.start) ∨
      ((advanceAux k q).current = none ∧ (advanceAux k q).sink = k)) ∧
    (advanceAux k (List.replicate K u ++ [p])).depth = K + 1 := by
  refine ⟨advanceAux_pops_le k q, ?_, ?_⟩
  · rcases advanceAux_idle_shape k hk q with ⟨t, h1, h2, h3, _⟩ | ⟨h1, h2, _⟩
    · exact Or.inl ⟨t, h1, h2, h3⟩
    · exact Or.inr ⟨h1, h2⟩
  · have h := advanceAux_skipRun k hk p hp []
      (List.replicate K u) (fun x hx => by
        rw [List.eq_of_mem_replicate hx]; exact hu)
    simp [h]

/-- Claim C4, witness for the amended theorem at a concrete queue. -/
theorem c4_witness :
    (advanceAux init0.sink [trackU, trackA]).pops ≤ 2 ∧
    ((∃ t, (advanceAux init0.sink [trackU, trackA]).current = some t ∧
        t.preview_url.isSome ∧
        (advanceAux init0.sink [trackU, trackA]).sink = init0.sink.start) ∨
      ((advanceAux init0.sink [trackU, trackA]).current = none ∧
        (advanceAux init0.sink [trackU, trackA]).sink = init0.sink)) ∧
    (advanceAux init0.sink (List.replicate 5 trackU ++ [trackA])).depth = 5 + 1 :=
  c4_amended init0.sink [trackU, trackA] trackU trackA 5 (by decide) (by decide)
    (by decide)

/-- Claim C5: `/stop` always results in an empty queue, no current track, a
stopped sink and phase `Idle`, whatever the prior state. -/
theorem c5_stop_resets (s : GState) :
    (stop s).queue = [] ∧ (stop s).current_track = none ∧
    (stop s).sink.playing = none ∧ phase (stop s) = Phase.Idle := by
  unfold stop vcStop
  cases h : s.sink.playing with
  | none => exact ⟨rfl, rfl, h, by simp [phase, Sink.isPlaying, Sink.isPaused, h]⟩
  | some i => exact ⟨rfl, rfl, rfl, by simp [phase, Sink.isPlaying, Sink.isPaused]⟩

/-- Claim C6: `/clear` removes exactly the pending queue entries, reports
their count, and leaves `nowPlaying`, the sink and hence the phase
untouched. -/
theorem c6_clear_frame (s : GState) :
    (clear s).1 = s.queue.length ∧ (clear s).2.queue = [] ∧
    (clear s).2.current_track = s.current_track ∧ (clear s).2.sink = s.sink ∧
    phase (clear s).2 = phase s := by
  exact ⟨rfl, rfl, rfl, rfl, rfl⟩

/-- Claim C7: enqueueing a playable resolved track on an idle tenant starts
it immediately (`StartedPlaying`, phase becomes `Playing`, the sink is
started with it); on a non idle tenant it is appended to the queue with the
1-based position equal to the queue length after the append, and successive
enqueues keep FIFO call order. -/
theorem c7_enqueue (s : GState) (t t2 : Track)
    (ht : t.preview_url.isSome) (ht2 : t2.preview_url.isSome) :
    (phase s = Phase.Idle →
      play (some t) s =
        (PlayResult.startedPlaying t,
         { s with current_track := some t, sink := s.sink.start }) ∧
      phase (play (some t) s).2 = Phase.Playing) ∧
    (phase s ≠ Phase.Idle →
      play (some t) s =
        (PlayResult.queued t (s.queue.length + 1), { s with queue := s.queue ++ [t] }) ∧
      (play (some t2) (play (some t) s).2).2.queue = s.queue ++ [t, t2]) := by
  have htn : t.preview_url.isNone = false := by
    cases h : t.preview_url with
    | none => rw [h] at ht; exact absurd ht (by simp)
    | some v => simp
  have ht2n : t2.preview_url.isNone = false := by
    cases h : t2.preview_url with
    | none => rw [h] at ht2; exact absurd ht2 (by simp)
    | some v => simp
  have hidle : phase s = Phase.Idle ↔ (s.sink.isPlaying || s.sink.isPaused) = false := by
    by_cases h1 : s.sink.isPlaying <;> by_cases h2 : s.sink.isPaused <;>
      simp [phase, h1, h2]
  constructor
  · intro hph
    have hguard := hidle.mp hph
    have h1 : s.sink.isPlaying = false := by
      cases hgg : s.sink.isPlaying
      · rfl
      · rw [hgg] at hguard; simp at hguard
    have h2 : s.sink.isPaused = false := by
      cases hgg : s.sink.isPaused
      · rfl
      · rw [hgg] at hguard; simp at hguard
    have hnone : s.sink.playing.isSome = false := by
      cases hps : s.sink.playing.isSome
      · rfl
      · exfalso
        cases hpa : s.sink.paused
        · simp [Sink.isPlaying, hps, hpa] at h1
        · simp [Sink.isPaused, hps, hpa] at h2
    constructor
    · simp [play, htn, Sink.isPlaying, Sink.isPaused, hnone]
    · simp [play, htn, Sink.isPlaying, Sink.isPaused, hnone, phase, Sink.start]
  · intro hph
    have hguard : (s.sink.isPlaying || s.sink.isPaused) = true := by
      cases h : (s.sink.isPlaying || s.sink.isPaused) with
      | false => exact absurd (hidle.mpr h) hph
      | true => rfl
    constructor
    · simp [play, htn, hguard]
    · simp [play, htn, ht2n, hguard]

/-- Claim C7, witness: first enqueue on a fresh guild starts playing, and on
the resulting playing state an enqueue is queued at position 1 with FIFO
order kept by a following enqueue. -/
theorem c7_witness :
    ((phase init0 = Phase.Idle →
      play (some trackA) init0 =
        (PlayResult.startedPlaying trackA,
         { init0 with current_track := some trackA, sink := init0.sink.start }) ∧
      phase (play (some trackA) init0).2 = Phase.Playing) ∧
    (phase init0 ≠ Phase.Idle →
      play (some trackA) init0 =
        (PlayResult.queued trackA (init0.queue.length + 1),
         { init0 with queue := init0.queue ++ [trackA] }) ∧
      (play (some trackD) (play (some trackA) init0).2).2.queue
          = init0.queue ++ [trackA, trackD])) ∧
    ((phase sPlayingA = Phase.Idle →
      play (some trackB) sPlayingA =
        (PlayResult.startedPlaying trackB,
         { sPlayingA with current_track := some trackB, sink := sPlayingA.sink.start }) ∧
      phase (play (some trackB) sPlayingA).2 = Phase.Playing) ∧
    (phase sPlayingA ≠ Phase.Idle →
      play (some trackB) sPlayingA =
        (PlayResult.queued trackB (sPlayingA.queue.length + 1),
         { sPlayingA with queue := sPlayingA.queue ++ [trackB] }) ∧
      (play (some trackD) (play (some trackB) sPlayingA).2).2.queue
          = sPlayingA.queue ++ [trackB, trackD])) :=
  ⟨c7_enqueue init0 trackA trackD (by decide) (by decide),
   c7_enqueue sPlayingA trackB trackD (by decide) (by decide)⟩

/-- Claim C8: enqueue fails with the not-found error exactly when the
resolver returns nothing, and with the distinct no-playable-source error
(carrying the track catalog link `full_url`) exactly when the resolved track
has no preview; in both cases the tenant state is left unchanged. -/
theorem c8_enqueue_errors (s : GState) (t : Track) :
    play none s = (PlayResult.notFound, s) ∧
    (∀ r : Option Track, (play r s).1 = PlayResult.notFound ↔ r = none) ∧
    (t.preview_url = none →
      play (some t) s = (PlayResult.noPreview t.title t.artist t.full_url, s)) ∧
    ((play (some t) s).1 = PlayResult.noPreview t.title t.artist t.full_url ↔
      t.preview_url = none) := by
  refine ⟨rfl, ?_, ?_, ?_⟩
  · intro r
    cases r with
    | none => simp [play]
    | some t' =>
      simp only [play]
      by_cases h1 : t'.preview_url.isNone
      · simp [h1]
      · by_cases h2 : (s.sink.isPlaying || s.sink.isPaused) = true
        · simp [h1, h2]
        · simp [h1, h2]
  · intro h
    simp [play, h]
  · constructor
    · intro h
      by_cases h1 : t.preview_url.isNone
      · exact Option.isNone_iff_eq_none.mp h1
      · exfalso
        by_cases h2 : (s.sink.isPlaying || s.sink.isPaused) = true
        · simp [play, h1, h2] at h
        · simp [play, h1, h2] at h
    · intro h
      simp [play, h]

/-- Claim C8, witness: a missing resolver result and a source-less track on
the fresh idle guild. -/
theorem c8_witness :
    play none init0 = (PlayResult.notFound, init0) ∧
    (∀ r : Option Track, (play r init0).1 = PlayResult.notFound ↔ r = none) ∧
    (trackU.preview_url = none →
      play (some trackU) init0 =
        (PlayResult.noPreview trackU.title trackU.artist trackU.full_url, init0)) ∧
    ((play (some trackU) init0).1 =
        PlayResult.noPreview trackU.title trackU.artist trackU.full_url ↔
      trackU.preview_url = none) :=
  c8_enqueue_errors init0 trackU

/-- Claim C9, counterexample.  The invariant `nowPlaying != None iff phase in
Playing or Paused` is not preserved: after enqueue `trackA`, enqueue
`trackB`, `/skip`, and delivery of the stopped stream completion callback,
the settled state has phase `Playing` (the sink is playing the second
stream) while `current_track` is `None`. -/
theorem c9_counterexample :
    phase sSettled = Phase.Playing ∧ sSettled.current_track = none := by
  decide

/-- Claim C9, amended: the equivalence `nowPlaying != None iff a stream is
active` is preserved by enqueue, pause, resume, stop and clearQueue, and by a
completion task delivered while the sink is idle; it is not preserved by
`/skip` nor by completion tasks delivered while the sink is playing (see the
counterexample). -/
theorem c9_invariant (s : GState) (r : Option Track) (hinv : Inv s) :
    Inv (play r s).2 ∧ Inv (pause s) ∧ Inv (resume s) ∧ Inv (stop s) ∧
    Inv (clear s).2 ∧ (s.sink.playing = none → Inv (runTask s)) := by
  refine ⟨?_, ?_, ?_, ?_, ?_, ?_⟩
  · cases r with
    | none => exact hinv
    | some t =>
      simp only [play]
      by_cases h1 : t.preview_url.isNone
      · simpa [h1] using hinv
      · by_cases h2 : (s.sink.isPlaying || s.sink.isPaused) = true
        · simpa [h1, h2, Inv] using hinv
        · simp [h1, h2, Inv, Sink.start]
  · unfold pause
    by_cases h : s.sink.isPlaying
    · simpa [h, Inv] using hinv
    · simpa [h] using hinv
  · unfold resume
    by_cases h : s.sink.isPaused
    · simpa [h, Inv] using hinv
    · simpa [h] using hinv
  · unfold stop vcStop
    cases h : s.sink.playing with
    | none => simp [Inv, h]
    | some i => simp [Inv, h]
  · exact hinv
  · intro hidle
    unfold runTask
    cases htask : s.pendingTasks with
    | nil => exact hinv
    | cons j rest =>
      unfold play_next
      rcases advanceAux_idle_shape s.sink hidle s.queue with
        ⟨t, h1, _, h3, _⟩ | ⟨h1, h3, _⟩
      · simp [Inv, h1, h3, Sink.start]
      · simp [Inv, h1, h3, hidle]

/-- Claim C9, witness for the amended theorem at the fresh guild and a
playable track. -/
theorem c9_witness :
    Inv (play (some trackA) init0).2 ∧ Inv (pause init0) ∧ Inv (resume init0) ∧
    Inv (stop init0) ∧ Inv (clear init0).2 ∧
    (init0.sink.playing = none → Inv (runTask init0)) :=
  c9_invariant init0 (some trackA) (by decide)

/-! The duration formatter (bot.py lines 177..183) and a decimal parser for
its output. -/

/-- Python `f"{n:02d}"` for a natural number: zero padded to two digits. -/
def pad2 (n : Nat) : String :=
  if n < 10 then "0" ++ Nat.repr n else Nat.repr n

/-- Faithful translation of `format_duration` (bot.py lines 177..183):
`divmod(seconds, 60)`, and when `mins >= 60` another `divmod(mins, 60)`,
rendered as `H:MM:SS`, otherwise `M:SS`. -/
def format_duration (seconds : Nat) : String :=
  let mins := seconds / 60
  let secs := seconds % 60
  if mins ≥ 60 then
    let hours := mins / 60
    let mins2 := mins % 60
    Nat.repr hours ++ ":" ++ pad2 mins2 ++ ":" ++ pad2 secs
  else
    Nat.repr mins ++ ":" ++ pad2 secs

/-- Decimal value of a digit character list, most significant first, folded
onto `acc` (the folding performed by `String.toNat?`). -/
def decValue (cs : List Char) (acc : Nat) : Nat :=
  cs.foldl (fun n c => n * 10 + (c.toNat - 48)) acc

/-- Read a nonempty all-digit character list as a decimal numeral. -/
def readNat (cs : List Char) : Option Nat :=
  if cs = [] then none
  else if cs.all (fun c => c.isDigit) then some (decValue cs 0) else none

/-- Parse a duration string of the shape `H:MM:SS` or `M:SS` back to
seconds. -/
def parseDuration (str : String) : Option Nat :=
  match (str.data.splitOn ':').map readNat with
  | [some m, some s] => some (m * 60 + s)
  | [some h, some m, some s] => some (h * 3600 + m * 60 + s)
  | _ => none

example : format_duration 125 = "2:05" := by decide
example : format_duration 3725 = "1:02:05" := by decide
example : parseDuration "2:05" = some 125 := by decide
example : parseDuration "1:02:05" = some 3725 := by decide

/-! Correctness of the decimal rendering done by `Nat.repr`. -/

theorem toDigitsCore_zero (b n : Nat) (ds : List Char) :
    Nat.toDigitsCore b 0 n ds = ds := rfl

theorem toDigitsCore_succ (b f n : Nat) (ds : List Char) :
    Nat.toDigitsCore b (f + 1) n ds =
      if n / b = 0 then Nat.digitChar (n % b) :: ds
      else Nat.toDigitsCore b f (n / b) (Nat.digitChar (n % b) :: ds) := rfl

theorem toDigitsCore_append (b : Nat) :
    ∀ (f n : Nat) (ds : List Char),
      Nat.toDigitsCore b f n ds = Nat.toDigitsCore b f n [] ++ ds := by
  intro f
  induction f with
  | zero => intro n ds; simp [toDigitsCore_zero]
  | succ f ih =>
    intro n ds
    rw [toDigitsCore_succ, toDigitsCore_succ]
    by_cases h : n / b = 0
    · simp [h]
    · rw [if_neg h, if_neg h, ih (n / b) (Nat.digitChar (n % b) :: ds),
        ih (n / b) [Nat.digitChar (n % b)], List.append_assoc]
      rfl

theorem digitChar_spec (m : Nat) (hm : m < 10) :
    (Nat.digitChar m).isDigit = true ∧ (Nat.digitChar m).toNat - 48 = m ∧
      Nat.digitChar m ≠ ':' := by
  have h : ∀ k, k < 10 → (Nat.digitChar k).isDigit = true ∧
      (Nat.digitChar k).toNat - 48 = k ∧ Nat.digitChar k ≠ ':' := by decide
  exact h m hm

theorem toDigitsCore_spec :
    ∀ (f n : Nat), n < 10 ^ f → 0 < f →
      Nat.toDigitsCore 10 f n [] ≠ [] ∧
      (∀ c ∈ Nat.toDigitsCore 10 f n [], c.isDigit = true) ∧
      (∀ acc, decValue (Nat.toDigitsCore 10 f n []) acc =
        acc * 10 ^ (Nat.toDigitsCore 10 f n []).length + n) := by
  intro f
  induction f with
  | zero => intro n _ h0; exact absurd h0 (by omega)
  | succ f ih =>
    intro n hn _
    by_cases hdiv : n / 10 = 0
    · have hn10 : n < 10 := by omega
      have hmod : n % 10 = n := Nat.mod_eq_of_lt hn10
      obtain ⟨hd1, hd2, _⟩ := digitChar_spec (n % 10) (by omega)
      rw [toDigitsCore_succ, if_pos hdiv]
      refine ⟨by simp, ?_, ?_⟩
      · intro c hc
        rw [List.mem_singleton] at hc
        rw [hc]; exact hd1
      · intro acc
        simp only [decValue, List.foldl_cons, List.foldl_nil, List.length_singleton,
          pow_one]
        rw [hd2, hmod]
    · have hf : 0 < f := by
        rcases Nat.eq_zero_or_pos f with h0 | h0
        · exfalso; rw [h0] at hn; simp at hn; omega
        · exact h0
      have hlt : n / 10 < 10 ^ f := by
        rw [Nat.div_lt_iff_lt_mul (by norm_num)]
        calc n < 10 ^ (f + 1) := hn
        _ = 10 ^ f * 10 := pow_succ 10 f
      obtain ⟨hne, hdig, hval⟩ := ih (n / 10) hlt hf
      obtain ⟨hd1, hd2, _⟩ := digitChar_spec (n % 10) (by omega)
      rw [toDigitsCore_succ, if_neg hdiv, toDigitsCore_append]
      refine ⟨by simp [hne], ?_, ?_⟩
      · intro c hc
        rw [List.mem_append, List.mem_singleton] at hc
        rcases hc with hc | hc
        · exact hdig c hc
        · rw [hc]; exact hd1
      · intro acc
        simp only [decValue] at hval ⊢
        rw [List.foldl_append, hval acc]
        simp only [List.foldl_cons, List.foldl_nil, List.length_append,
          List.length_singleton]
        rw [hd2, pow_succ]
        have := Nat.div_add_mod n 10
        ring_nf
        omega

theorem data_asString (l : List Char) : (List.asString l).data = l := rfl

theorem repr_spec (n : Nat) :
    (Nat.repr n).data ≠ [] ∧ (∀ c ∈ (Nat.repr n).data, c.isDigit = true) ∧
      decValue (Nat.repr n).data 0 = n := by
  have hlt : n < 10 ^ (n + 1) := by
    calc n < 10 ^ n := Nat.lt_pow_self (by norm_num) n
    _ ≤ 10 ^ (n + 1) := Nat.pow_le_pow_right (by norm_num) (Nat.le_succ n)
  have h : (Nat.repr n).data = Nat.toDigitsCore 10 (n + 1) n [] := rfl
  rw [h]
  obtain ⟨h1, h2, h3⟩ := toDigitsCore_spec (n + 1) n hlt (by omega)
  exact ⟨h1, h2, by rw [h3 0]; simp⟩

theorem readNat_repr (n : Nat) : readNat (Nat.repr n).data = some n := by
  obtain ⟨h1, h2, h3⟩ := repr_spec n
  unfold readNat
  rw [if_neg h1, if_pos, h3]
  rw [List.all_eq_true]
  intro c hc
  simpa using h2 c hc

theorem pad2_data (n : Nat) :
    (pad2 n).data =
      if n < 10 then '0' :: (Nat.repr n).data else (Nat.repr n).data := by
  unfold pad2
  by_cases h : n < 10
  · rw [if_pos h, if_pos h]; rfl
  · rw [if_neg h, if_neg h]

theorem pad2_digits (n : Nat) : ∀ c ∈ (pad2 n).data, c.isDigit = true := by
  obtain ⟨_, h2, _⟩ := repr_spec n
  rw [pad2_data]
  by_cases h : n < 10
  · rw [if_pos h]
    intro c hc
    rw [List.mem_cons] at hc
    rcases hc with hc | hc
    · rw [hc]; decide
    · exact h2 c hc
  · rw [if_neg h]; exact h2

theorem readNat_pad2 (n : Nat) : readNat (pad2 n).data = some n := by
  obtain ⟨h1, h2, h3⟩ := repr_spec n
  rw [pad2_data]
  by_cases h : n < 10
  · rw [if_pos h]
    have hall : ('0' :: (Nat.repr n).data).all (fun c => c.isDigit) = true := by
      rw [List.all_eq_true]
      intro c hc
      rw [List.mem_cons] at hc
      rcases hc with hc | hc
      · rw [hc]; decide
      · simpa using h2 c hc
    unfold readNat
    rw [if_neg (by simp), if_pos hall]
    have h0 : (0 : Nat) * 10 + ('0'.toNat - 48) = 0 := by decide
    have hz : decValue ('0' :: (Nat.repr n).data) 0 = decValue (Nat.repr n).data 0 := by
      simp only [decValue, List.foldl_cons, h0]
    rw [hz, h3]
  · rw [if_neg h]; exact readNat_repr n

theorem no_colon_of_digits {cs : List Char}
    (h : ∀ c ∈ cs, c.isDigit = true) : ':' ∉ cs := by
  intro hmem
  exact absurd (h ':' hmem) (by decide)

theorem intercalate_pair (a b : List Char) :
    [':'].intercalate [a, b] = a ++ ':' :: b := by
  simp [List.intercalate, List.intersperse]

theorem intercalate_triple (a b c : List Char) :
    [':'].intercalate [a, b, c] = a ++ ':' :: (b ++ ':' :: c) := by
  simp [List.intercalate, List.intersperse]

theorem splitOn_pair {A B : List Char} (hA : ':' ∉ A) (hB : ':' ∉ B) :
    (A ++ ':' :: B).splitOn ':' = [A, B] := by
  have hx : ∀ l ∈ [A, B], ':' ∉ l := by
    intro l hl
    rw [List.mem_cons, List.mem_singleton] at hl
    rcases hl with h | h
    · rw [h]; exact hA
    · rw [h]; exact hB
  have h := List.splitOn_intercalate [A, B] ':' hx (by simp)
  rw [intercalate_pair] at h
  exact h

theorem splitOn_triple {A B C : List Char} (hA : ':' ∉ A) (hB : ':' ∉ B)
    (hC : ':' ∉ C) :
    (A ++ ':' :: (B ++ ':' :: C)).splitOn ':' = [A, B, C] := by
  have hx : ∀ l ∈ [A, B, C], ':' ∉ l := by
    intro l hl
    rw [List.mem_cons, List.mem_cons, List.mem_singleton] at hl
    rcases hl with h | h | h
    · rw [h]; exact hA
    · rw [h]; exact hB
    · rw [h]; exact hC
  have h := List.splitOn_intercalate [A, B, C] ':' hx (by simp)
  rw [intercalate_triple] at h
  exact h

theorem format_duration_data_short (s : Nat) (h : ¬ 60 ≤ s / 60) :
    (format_duration s).data =
      (Nat.repr (s / 60)).data ++ ':' :: (pad2 (s % 60)).data := by
  unfold format_duration
  rw [if_neg h]
  simp

theorem format_duration_data_long (s : Nat) (h : 60 ≤ s / 60) :
    (format_duration s).data =
      (Nat.repr (s / 60 / 60)).data ++
        ':' :: ((pad2 (s / 60 % 60)).data ++ ':' :: (pad2 (s % 60)).data) := by
  unfold format_duration
  rw [if_pos h]
  simp

theorem parse_format_duration (s : Nat) :
    parseDuration (format_duration s) = some s := by
  unfold parseDuration
  by_cases h : 60 ≤ s / 60
  · rw [format_duration_data_long s h,
      splitOn_triple (no_colon_of_digits (repr_spec (s / 60 / 60)).2.1)
        (no_colon_of_digits (pad2_digits (s / 60 % 60)))
        (no_colon_of_digits (pad2_digits (s % 60)))]
    rw [List.map_cons, List.map_cons, List.map_cons, List.map_nil,
      readNat_repr, readNat_pad2, readNat_pad2]
    show some (s / 60 / 60 * 3600 + s / 60 % 60 * 60 + s % 60) = some s
    congr 1
    omega
  · rw [format_duration_data_short s h,
      splitOn_pair (no_colon_of_digits (repr_spec (s / 60)).2.1)
        (no_colon_of_digits (pad2_digits (s % 60)))]
    rw [List.map_cons, List.map_cons, List.map_nil, readNat_repr, readNat_pad2]
    show some (s / 60 * 60 + s % 60) = some s
    congr 1
    omega

theorem pad2_length (n : Nat) (hn : n < 60) : (pad2 n).length = 2 := by
  have h : ∀ k, k < 60 → (pad2 k).length = 2 := by decide
  exact h n hn

/-- Claim C10: for every `s`, the formatted duration has a seconds field
`s % 60` in `[0, 60)` rendered with exactly two characters, a minutes field
in `[0, 60)` whenever the hours field is present, components summing back to
`s` (`hours * 3600 + minutes * 60 + seconds = s`), the exact `H:MM:SS` or
`M:SS` shape, and parsing the formatted string recovers `s` exactly. -/
theorem c10_format_duration (s : Nat) :
    s % 60 < 60 ∧ (pad2 (s % 60)).length = 2 ∧
    (60 ≤ s / 60 →
      s / 60 % 60 < 60 ∧
      s / 60 / 60 * 3600 + s / 60 % 60 * 60 + s % 60 = s ∧
      format_duration s =
        Nat.repr (s / 60 / 60) ++ ":" ++ pad2 (s / 60 % 60) ++ ":" ++ pad2 (s % 60)) ∧
    (¬ 60 ≤ s / 60 →
      s / 60 < 60 ∧ s / 60 * 60 + s % 60 = s ∧
      format_duration s = Nat.repr (s / 60) ++ ":" ++ pad2 (s % 60)) ∧
    parseDuration (format_duration s) = some s := by
  have hm : s % 60 < 60 := Nat.mod_lt s (by norm_num)
  refine ⟨hm, pad2_length _ hm, ?_, ?_, parse_format_duration s⟩
  · intro h
    refine ⟨Nat.mod_lt _ (by norm_num), by omega, ?_⟩
    simp only [format_duration]
    rw [if_pos h]
  · intro h
    refine ⟨by omega, by omega, ?_⟩
    simp only [format_duration]
    rw [if_neg h]

/-- Claim C10, witness at 3725 seconds (hours case) and 125 seconds
(no hours case). -/
theorem c10_witness :
    (3725 % 60 < 60 ∧ parseDuration (format_duration 3725) = some 3725 ∧
      3725 / 60 / 60 * 3600 + 3725 / 60 % 60 * 60 + 3725 % 60 = 3725 ∧
      format_duration 3725 =
        Nat.repr (3725 / 60 / 60) ++ ":" ++ pad2 (3725 / 60 % 60) ++ ":" ++
          pad2 (3725 % 60)) ∧
    (parseDuration (format_duration 125) = some 125 ∧
      format_duration 125 = Nat.repr (125 / 60) ++ ":" ++ pad2 (125 % 60)) := by
  refine ⟨⟨(c10_format_duration 3725).1, (c10_format_duration 3725).2.2.2.2,
    ?_, ?_⟩, (c10_format_duration 125).2.2.2.2, ?_⟩
  · exact ((c10_format_duration 3725).2.2.1 (by decide)).2.1
  · exact ((c10_format_duration 3725).2.2.1 (by decide)).2.2
  · exact ((c10_format_duration 125).2.2.2.1 (by decide)).2.2

end MusicBot
